import Mathlib

/-!
Verification development for the ModDependencyUpdater core
(`src-tauri/src/gradle.rs`, `cf.rs`, `mr.rs`, `mojang.rs`, `operations.rs`,
`util.rs`).

Build-script text is modelled as `List Char` (`Txt`).  The Rust code drives
its editing with the `regex` crate; the handful of fixed patterns it uses
(`(?m)^\s*NAME\s*\{`, `(?m)^\s*.*curse\.maven:[^:]*-MODID:\d+.*$`, …) are
embedded by a small backtracking matcher (`matchSeq`) over an element list
(`RElem`), faithful to the crate's leftmost-first / greedy-star semantics
for these star-of-character-class patterns.  Whitespace (`\s`) is modelled
at its ASCII subset, which is exact for the build-script inputs at issue.
-/

namespace MDU

abbrev Txt := List Char

/-- regex `\s` (ASCII subset: space, tab, LF, CR, VT, FF). -/
def isWs (c : Char) : Bool :=
  c = ' ' || c = '\t' || c = '\n' || c = '\r' || c = '\x0b' || c = '\x0c'

/-- regex `.` — any character except a newline. -/
def notNl (c : Char) : Bool := c ≠ '\n'

/-- regex `[^:]` — any character except a colon (newlines included). -/
def notColon (c : Char) : Bool := c ≠ ':'

/-- regex `[A-Za-z0-9.-]`, the Modrinth version-id class in `gradle.rs`. -/
def isMrIdChar (c : Char) : Bool := c.isAlphanum || c = '.' || c = '-'

/-- regex `[a-zA-Z0-9_.-]`, the version-suffix class of `VERSION_RE` in `cf.rs`. -/
def isSufChar (c : Char) : Bool := c.isAlphanum || c = '_' || c = '.' || c = '-'

/-- One element of the fixed regex shapes used by `gradle.rs`:
a literal, a single-character class, a greedy star over a class,
or the multiline end-of-line anchor `$`. -/
inductive RElem where
  | lit : Txt → RElem
  | cls : (Char → Bool) → RElem
  | star : (Char → Bool) → RElem
  | eol : RElem

/-- Greedy backtracking for `star`: try consuming `k, k-1, …, 0` characters
(`matchRest` is the matcher for the rest of the pattern). -/
def starGo (matchRest : Txt → Option Nat) (s : Txt) : Nat → Option Nat
  | 0 => matchRest s
  | k + 1 =>
    match (matchRest (s.drop (k + 1))).map (· + (k + 1)) with
    | some r => some r
    | none => starGo matchRest s k

/-- Backtracking matcher: `matchSeq pat s = some n` iff the pattern matches a
prefix of `s` of length `n`, choosing the leftmost-first (greedy) alternative
exactly as the Rust `regex` crate does for these patterns. -/
def matchSeq : List RElem → Txt → Option Nat
  | [], _ => some 0
  | .lit l :: ps, s =>
    if l.isPrefixOf s then (matchSeq ps (s.drop l.length)).map (· + l.length)
    else none
  | .cls p :: ps, s =>
    match s with
    | [] => none
    | c :: rest => if p c then (matchSeq ps rest).map (· + 1) else none
  | .star p :: ps, s => starGo (matchSeq ps) s ((s.takeWhile p).length)
  | .eol :: ps, s =>
    match s with
    | [] => matchSeq ps []
    | c :: _ => if c = '\n' then matchSeq ps s else none

/-- Anchor `^` with the `(?m)` flag: position `i` is the start of a line of `src`. -/
def isLineStart (src : Txt) (i : Nat) : Bool :=
  match i with
  | 0 => true
  | j + 1 => src.getD j ' ' = '\n' && j + 1 ≤ src.length

/-- Model of `Regex::find` for a `(?m)^…` pattern, searching from position `i`:
the match whose start is the least line-start `≥ i` where the pattern
matches; returns `(start, end)` byte offsets. -/
def findAnchoredFrom (pat : List RElem) (src : Txt) : Nat → Nat → Option (Nat × Nat)
  | _, 0 => none
  | i, fuel + 1 =>
    if i > src.length then none
    else if isLineStart src i then
      match matchSeq pat (src.drop i) with
      | some n => some (i, i + n)
      | none => findAnchoredFrom pat src (i + 1) fuel
    else findAnchoredFrom pat src (i + 1) fuel

/-- The anchor pattern `^\s*NAME\s*\{` of `RE_REPOSITORIES` / `RE_DEPENDENCIES`
in `gradle.rs` (parametrised by the block name). -/
def blockPat (name : Txt) : List RElem :=
  [.star isWs, .lit name, .star isWs, .cls (fun c => c = '{')]

/-- Brace depth of `text` as counted by the loop at `gradle.rs:11-18`:
`{` increments, `}` decrements only when the depth is positive. -/
def braceDepth (text : Txt) : Nat :=
  text.foldl
    (fun d c => if c = '{' then d + 1 else if c = '}' && d > 0 then d - 1 else d) 0

/-- The forward brace walk of `gradle.rs:20-30`: starting after the opening
brace at offset `pos` with depth `brace`, consume characters until the depth
returns to zero or the text ends; returns the final `(pos, brace)`. -/
def braceWalk : Txt → Nat → Nat → Nat × Nat
  | [], pos, brace => (pos, brace)
  | _ :: _, pos, 0 => (pos, 0)
  | c :: cs, pos, brace + 1 =>
    braceWalk cs (pos + 1)
      (if c = '{' then brace + 2 else if c = '}' then brace else brace + 1)

/-- Loop of `find_top_level_block_range` (`gradle.rs:9-36`): iterate the
anchored matches (non-overlapping, continuing at each match end); at the
first match preceded by brace depth 0, walk braces forward and return the
range from just after the opening brace to the matching closing brace
(or to end of text when no closing brace is found). -/
def ftlrLoop (name : Txt) (src : Txt) : Nat → Nat → Option (Nat × Nat)
  | _, 0 => none
  | i, fuel + 1 =>
    match findAnchoredFrom (blockPat name) src i (src.length + 1 - i) with
    | none => none
    | some (ms, me) =>
      if braceDepth (src.take ms) = 0 then
        some (me, if (braceWalk (src.drop me) me 1).2 = 0
          then (braceWalk (src.drop me) me 1).1 - 1 else src.length)
      else ftlrLoop name src me fuel

/-- Embedding of `find_top_level_block_range` (`gradle.rs:9-36`), with the block name of
the anchoring regex made explicit. -/
def find_top_level_block_range (name : Txt) (src : Txt) : Option (Nat × Nat) :=
  ftlrLoop name src 0 (src.length + 1)

/-- Model of `Regex::find` for an unanchored pattern, searching from position `i`:
the leftmost match position (`RElem` patterns cannot match empty here). -/
def findFrom (pat : List RElem) (src : Txt) : Nat → Nat → Option (Nat × Nat)
  | _, 0 => none
  | i, fuel + 1 =>
    if i > src.length then none
    else
      match matchSeq pat (src.drop i) with
      | some n => some (i, i + n)
      | none => findFrom pat src (i + 1) fuel

/-- The `curse_repo` stanza literal of `ensure_curse_maven_repo` (`gradle.rs:43-49`). -/
def curseRepoStanza : Txt :=
  ("    maven \x7b\n        name = \"Curse Maven\"\n        url = \"https://cursemaven.com\"\n        content \x7b\n            includeGroup \"curse.maven\"\n        \x7d\n    \x7d").toList

/-- The `modrinth_repo` stanza literal of `ensure_modrinth_maven_repo` (`gradle.rs:78-81`). -/
def modrinthRepoStanza : Txt :=
  ("    maven \x7b\n        name = \"Modrinth\"\n        url = \"https://api.modrinth.com/maven\"\n    \x7d").toList

/-- Shared tail of both repo ensurers (`gradle.rs:51-70` / `83-100`): splice the
stanza into an existing top-level `repositories` block, or create a block after
a leading `plugins {` (first `}` scan) or at the very front. -/
def ensureRepoCore (stanza : Txt) (T : Txt) : Txt :=
  match find_top_level_block_range "repositories".toList T with
  | some (s, e) =>
    let inside := (T.take e).drop s
    let pre : Txt := if inside.getLast? = some '\n' then [] else ['\n']
    T.take s ++ inside ++ pre ++ stanza ++ ['\n'] ++ T.drop e
  | none =>
    if "plugins \x7b".toList.isPrefixOf (T.dropWhile isWs) then
      let pluginsEnd := match T.findIdx? (fun c => c = '}') with
        | some i => i + 1
        | none => 0
      T.take pluginsEnd ++ "\n\nrepositories \x7b\n".toList ++ stanza
        ++ "\n\x7d\n\n".toList ++ T.drop pluginsEnd
    else
      "repositories \x7b\n".toList ++ stanza ++ "\n\x7d\n\n".toList ++ T

/-- Embedding of `ensure_curse_maven_repo` (`gradle.rs:38-71`). -/
def ensure_curse_maven_repo (T : Txt) : Txt :=
  if "https://cursemaven.com".toList <:+: T ∨ "curse.maven".toList <:+: T then T
  else ensureRepoCore curseRepoStanza T

/-- Embedding of `ensure_modrinth_maven_repo` (`gradle.rs:73-101`). -/
def ensure_modrinth_maven_repo (T : Txt) : Txt :=
  if "https://api.modrinth.com/maven".toList <:+: T then T
  else ensureRepoCore modrinthRepoStanza T

/-- Embedding of `generate_dep` (`gradle.rs:103-111`): the CurseForge dependency-line composer. -/
def generate_dep (loader slug modid : Txt) (file_id : Nat) : Except Txt Txt :=
  let coordinate :=
    "curse.maven:".toList ++ slug ++ ['-'] ++ modid ++ [':'] ++ (Nat.repr file_id).toList
  let ll := loader.map Char.toLower
  if ll = "forge".toList then
    .ok ("    implementation fg.deobf(\"".toList ++ coordinate ++ "\")".toList)
  else if ll = "fabric".toList ∨ ll = "quilt".toList then
    .ok ("    modImplementation \"".toList ++ coordinate ++ ['\"'])
  else if ll = "neoforge".toList then
    .ok ("    implementation \"".toList ++ coordinate ++ ['\"'])
  else .error ("Unknown loader: ".toList ++ loader)

/-- Embedding of `generate_mr_dep` (`gradle.rs:113-121`): the Modrinth dependency-line composer. -/
def generate_mr_dep (loader slug version_id : Txt) : Except Txt Txt :=
  let coordinate := "maven.modrinth:".toList ++ slug ++ [':'] ++ version_id
  let ll := loader.map Char.toLower
  if ll = "forge".toList then
    .ok ("    implementation fg.deobf(\"".toList ++ coordinate ++ "\")".toList)
  else if ll = "fabric".toList ∨ ll = "quilt".toList then
    .ok ("    modImplementation \"".toList ++ coordinate ++ ['\"'])
  else if ll = "neoforge".toList then
    .ok ("    implementation \"".toList ++ coordinate ++ ['\"'])
  else .error ("Unknown loader: ".toList ++ loader)

/-- Embedding of `insert_into_dependencies_block` (`gradle.rs:123-134`). -/
def insert_into_dependencies_block (T dep_line : Txt) : Txt :=
  match find_top_level_block_range "dependencies".toList T with
  | some (s, e) =>
    let inside := (T.take e).drop s
    let pre : Txt := if inside.getLast? = some '\n' then [] else ['\n']
    T.take s ++ inside ++ pre ++ dep_line ++ ['\n'] ++ T.drop e
  | none => T ++ "\ndependencies \x7b\n".toList ++ dep_line ++ "\n\x7d\n".toList

/-- The module-identity line pattern `(?m)^\s*.*curse\.maven:[^:]*-MODID:\d+.*$`
of `update_or_insert_dependency` (`gradle.rs:137-140`). -/
def cfLinePat (modid : Txt) : List RElem :=
  [.star isWs, .star notNl, .lit "curse.maven:".toList, .star notColon,
   .lit (['-'] ++ modid ++ [':']), .cls Char.isDigit, .star Char.isDigit,
   .star notNl, .eol]

/-- The line pattern `(?m)^\s*.*maven\.modrinth:SLUG:[A-Za-z0-9.-]+.*$`
of `update_or_insert_dependency_mr` (`gradle.rs:169-172`). -/
def mrLinePat (slug : Txt) : List RElem :=
  [.star isWs, .star notNl, .lit ("maven.modrinth:".toList ++ slug ++ [':']),
   .cls isMrIdChar, .star isMrIdChar, .star notNl, .eol]

/-- Capture-reference name character of the regex crate's replacement-string
syntax: `[0-9A-Za-z_]`. -/
def isWordChar (c : Char) : Bool := c.isAlphanum || c = '_'

/-- Expansion of a `Regex::replace` replacement string, as the regex crate
performs it: at `$`, the LONGEST run of `[0-9A-Za-z_]` characters is read as
one capture-reference name — so the formatted replacement with `nid = 456`
yields `$1456`, a reference to the nonexistent group `1456` — and a reference
to a group the pattern does not have expands to the empty string; a `$`
followed by no name character is literal.  `grp` maps a reference name to its
captured text, when the group exists. -/
def expandRepl (grp : Txt → Option Txt) : Nat → Txt → Txt
  | 0, _ => []
  | _ + 1, [] => []
  | f + 1, '$' :: rest =>
    let name := rest.takeWhile isWordChar
    if name = [] then '$' :: expandRepl grp f rest
    else (grp name).getD [] ++ expandRepl grp f (rest.drop name.length)
  | f + 1, c :: rest => c :: expandRepl grp f rest

/-- Model of the replacement at `gradle.rs:155` for
`id_re = (curse\.maven:[^:]*-MODID:)(\d+)` (`gradle.rs:147-155`): replace the
first match with the expansion of the replacement string `$1` followed by the
digits of `nid` — which the regex crate reads as the single nonexistent group
reference `$1456…`, expanding to nothing, so the matched coordinate is
deleted rather than given the new file id. -/
def cfIdReplace (modid nid line : Txt) : Txt :=
  let pat : List RElem :=
    [.lit "curse.maven:".toList, .star notColon, .lit (['-'] ++ modid ++ [':']),
     .cls Char.isDigit, .star Char.isDigit]
  match findFrom pat line 0 (line.length + 1) with
  | none => line
  | some (s, e) =>
    let g2len := ((line.take e).reverse.takeWhile Char.isDigit).length
    let g1 := (line.take (e - g2len)).drop s
    let g2 := (line.take e).drop (e - g2len)
    line.take s
      ++ expandRepl
          (fun n => if n = "1".toList then some g1
            else if n = "2".toList then some g2 else none)
          (nid.length + 2) ('$' :: '1' :: nid)
      ++ line.drop e

/-- Model of the replacement at `gradle.rs:190` for
`id_re = (maven\.modrinth:SLUG:)[A-Za-z0-9.-]+` (`gradle.rs:179-190`), with
the same regex-crate replacement-string expansion as `cfIdReplace` (whenever
`nid` starts with a `[0-9A-Za-z_]` character, `$1` and that run form one
nonexistent group reference expanding to the empty string). -/
def mrIdReplace (slug nid line : Txt) : Txt :=
  let g1lit := "maven.modrinth:".toList ++ slug ++ [':']
  let pat : List RElem := [.lit g1lit, .cls isMrIdChar, .star isMrIdChar]
  match findFrom pat line 0 (line.length + 1) with
  | none => line
  | some (s, e) =>
    let g1 := (line.take (s + g1lit.length)).drop s
    line.take s
      ++ expandRepl (fun n => if n = "1".toList then some g1 else none)
          (nid.length + 2) ('$' :: '1' :: nid)
      ++ line.drop e

/-- The replacement-id extraction regex `curse\\.maven:[^:]+-\d+:(\d+)` of
`gradle.rs:149-153`.  NOTE: inside a Rust raw string, `\\` denotes a literal
backslash character, so this pattern requires the text `curse\` followed by
any character and then `maven:` — embedded verbatim. -/
def cfNewIdPat : List RElem :=
  [.lit "curse\\".toList, .cls notNl, .lit "maven:".toList, .cls notColon,
   .star notColon, .lit ['-'], .cls Char.isDigit, .star Char.isDigit,
   .lit [':'], .cls Char.isDigit, .star Char.isDigit]

/-- The `new_id` extraction of `gradle.rs:149-153`: capture group 1 (the trailing
digit run) of the first `cfNewIdPat` match, if any. -/
def extract_new_id_cf (dep_line : Txt) : Option Txt :=
  match findFrom cfNewIdPat dep_line 0 (dep_line.length + 1) with
  | none => none
  | some (_, e) => some ((dep_line.take e).reverse.takeWhile Char.isDigit).reverse

/-- The extraction regex `maven\\.modrinth:[^:]+:([A-Za-z0-9.-]+)` of
`gradle.rs:184-188` (same literal-backslash reading as `cfNewIdPat`). -/
def mrNewIdPat : List RElem :=
  [.lit "maven\\".toList, .cls notNl, .lit "modrinth:".toList, .cls notColon,
   .star notColon, .lit [':'], .cls isMrIdChar, .star isMrIdChar]

/-- The `new_id` extraction of `gradle.rs:184-188`. -/
def extract_new_id_mr (dep_line : Txt) : Option Txt :=
  match findFrom mrNewIdPat dep_line 0 (dep_line.length + 1) with
  | none => none
  | some (_, e) => some ((dep_line.take e).reverse.takeWhile isMrIdChar).reverse

/-- Embedding of `update_or_insert_dependency` (`gradle.rs:136-162`). -/
def update_or_insert_dependency (T modid dep_line : Txt) : Txt :=
  match findAnchoredFrom (cfLinePat modid) T 0 (T.length + 1) with
  | some (s, e) =>
    let line := (T.take e).drop s
    match extract_new_id_cf dep_line with
    | some nid => T.take s ++ cfIdReplace modid nid line ++ T.drop e
    | none => T.take s ++ dep_line ++ T.drop e
  | none => insert_into_dependencies_block T dep_line

/-- Embedding of `update_or_insert_dependency_mr` (`gradle.rs:164-197`). -/
def update_or_insert_dependency_mr (T slug dep_line : Txt) : Txt :=
  match findAnchoredFrom (mrLinePat slug) T 0 (T.length + 1) with
  | some (s, e) =>
    let line := (T.take e).drop s
    match extract_new_id_mr dep_line with
    | some nid => T.take s ++ mrIdReplace slug nid line ++ T.drop e
    | none => T.take s ++ dep_line ++ T.drop e
  | none => insert_into_dependencies_block T dep_line

/-! ### Version ordering (`mojang.rs`) -/

/-- ASCII lowercasing, modelling Rust `str::to_lowercase` on the inputs at issue. -/
def lowerStr (s : String) : String := String.mk (s.toList.map Char.toLower)

/-- Numeric value of a digit string. -/
def digitsToNat (l : Txt) : Nat := l.foldl (fun a c => a * 10 + (c.toNat - '0'.toNat)) 0

/-- Model of `str::parse::<u16>` on a nonempty digit capture: the value, unless it
overflows `u16`. -/
def parseU16 (l : Txt) : Option Nat :=
  if l ≠ [] ∧ l.all Char.isDigit then
    if digitsToNat l ≤ 65535 then some (digitsToNat l) else none
  else none

/-- Length consumed by the maximal (greedy) `(?:\.\d+)*` at the front of `s`. -/
def dotGroupsLen (s : Txt) (fuel : Nat) : Nat :=
  match fuel, s with
  | 0, _ => 0
  | _, [] => 0
  | f + 1, c :: rest =>
    if c = '.' then
      let n := (rest.takeWhile Char.isDigit).length
      if n = 0 then 0 else 1 + n + dotGroupsLen (rest.drop n) f
    else 0

/-- Model of `base_re.find` for `^\d+(?:\.\d+)+` (`mojang.rs:109`): the anchored
leading dotted-numeric prefix with at least one `.` group, if any. -/
def baseMatchLen (s : Txt) : Option Nat :=
  let d1 := (s.takeWhile Char.isDigit).length
  if d1 = 0 then none
  else
    let g := dotGroupsLen (s.drop d1) s.length
    if g = 0 then none else some (d1 + g)

/-- Scan loop of `findSuffixNum`. -/
def findSuffixNumGo (marker s : Txt) : Nat → Nat → Option Txt
  | _, 0 => none
  | i, fuel + 1 =>
    if i > s.length then none
    else
      let rest := (s.drop i).drop marker.length
      if marker.isPrefixOf (s.drop i) ∧ (rest.takeWhile Char.isDigit).length ≥ 1 then
        some (rest.takeWhile Char.isDigit)
      else findSuffixNumGo marker s (i + 1) fuel

/-- First occurrence of `marker` immediately followed by at least one digit;
returns the maximal digit run (the `(\d+)` capture of `-rc(\d+)` / `-pre(\d+)`). -/
def findSuffixNum (marker : Txt) (s : Txt) : Option Txt :=
  findSuffixNumGo marker s 0 (s.length + 1)

/-- The sort key `(idx, kind, rank)` computed per item by
`order_mc_versions_cf` (`mojang.rs:113-143`); the manifest index map is
abstracted as the function `index`. -/
def cfKey (index : String → Option Nat) (s : String) : Nat × Nat × Nat :=
  let sl := lowerStr s
  let idx0 := (index s).getD 65535
  let idx :=
    if idx0 = 65535 then
      match baseMatchLen sl.toList with
      | some m =>
        match index (String.mk (sl.toList.take m)) with
        | some bi => bi
        | none => idx0
      | none => idx0
    else idx0
  match findSuffixNum "-rc".toList sl.toList with
  | some ds => (idx, 1, (parseU16 ds).map (65535 - ·) |>.getD 65535)
  | none =>
    match findSuffixNum "-pre".toList sl.toList with
    | some ds => (idx, 2, (parseU16 ds).map (65535 - ·) |>.getD 65535)
    | none =>
      if "snapshot".toList <:+: sl.toList then (idx, 3, 0) else (idx, 0, 0)

/-- The comparator of `mojang.rs:145` (`a.0.cmp(b.0).then(a.1.cmp(b.1)).then(a.2.cmp(b.2))`)
as a total preorder: `cmp ≠ Greater`, i.e. lexicographic `≤` on the key. -/
def keyLE (a b : Nat × Nat × Nat) : Prop :=
  a.1 < b.1 ∨ (a.1 = b.1 ∧ (a.2.1 < b.2.1 ∨ (a.2.1 = b.2.1 ∧ a.2.2 ≤ b.2.2)))

instance : DecidableRel keyLE := fun a b =>
  inferInstanceAs (Decidable (a.1 < b.1 ∨ (a.1 = b.1
    ∧ (a.2.1 < b.2.1 ∨ (a.2.1 = b.2.1 ∧ a.2.2 ≤ b.2.2)))))

/-- The seen-set dedup loop of `mojang.rs:146-152`: keep the first occurrence
of each version string, in list order. -/
def dedupLoop : List ((Nat × Nat × Nat) × String) → List String → List String
  | [], _ => []
  | p :: rest, seen =>
    if p.2 ∈ seen then dedupLoop rest seen
    else p.2 :: dedupLoop rest (p.2 :: seen)

/-- Embedding of `order_mc_versions_cf` (`mojang.rs:104-157`), its in-memory core: the
cache-file read yielding the index map is abstracted as the `index` function
(the no-cache fallback `return input` is outside this model).  Rust's stable
`sort_by` is modelled by the stable `List.insertionSort` under the same
comparator. -/
def order_mc_versions_cf (index : String → Option Nat) (input : List String) : List String :=
  let items := input.map (fun s => (cfKey index s, s))
  dedupLoop (List.insertionSort (fun a b => keyLE a.1 b.1) items) []

/-! ### Version extraction and CurseForge resolution (`cf.rs`, `util.rs`) -/

/-- Optional version-suffix length: `(?:[-+][a-zA-Z0-9_.-]+)?` (greedy). -/
def sufLen (s : Txt) : Nat :=
  match s with
  | [] => 0
  | c :: rest =>
    if c = '-' ∨ c = '+' then
      let n := (rest.takeWhile isSufChar).length
      if n = 0 then 0 else 1 + n
    else 0

/-- Length of the `VERSION_RE` (`cf.rs:7-8`) match starting exactly here:
`\d+(?:\.\d+)*(?:[-+][a-zA-Z0-9_.-]+)?`, greedy. -/
def versionTokenLen (s : Txt) : Option Nat :=
  let d1 := (s.takeWhile Char.isDigit).length
  if d1 = 0 then none
  else
    let g := dotGroupsLen (s.drop d1) s.length
    some (d1 + g + sufLen (s.drop (d1 + g)))

/-- Scan loop of `extract_version`. -/
def extractGo (text : Txt) : Nat → Nat → Option Txt
  | _, 0 => none
  | i, fuel + 1 =>
    if i ≥ text.length then none
    else
      match versionTokenLen (text.drop i) with
      | some L =>
        let tok := (text.take (i + L)).drop i
        if '.' ∈ tok then some tok else extractGo text (i + L) fuel
      | none => extractGo text (i + 1) fuel

/-- Embedding of `extract_version` (`cf.rs:47-55`): iterate the non-overlapping leftmost
`VERSION_RE` matches and return the first containing a `.`. -/
def extract_version (text : Txt) : Option Txt :=
  extractGo text 0 (text.length + 1)

/-- Embedding of `cf_mod_loader_to_tag` (`cf.rs:234-244`). -/
def cf_mod_loader_to_tag (code : Nat) : String :=
  match code with
  | 1 => "Forge"
  | 6 => "NeoForge"
  | 4 => "Fabric"
  | 5 => "Quilt"
  | 3 => "LiteLoader"
  | 7 => "Rift"
  | _ => "Unknown"

/-- Embedding of `loader_name_to_tag` (`util.rs:88-102`): known loaders map to their fixed
tags; anything else gets its lowercased form first-letter-capitalized. -/
def loader_name_to_tag (name : String) : String :=
  let l := lowerStr name
  if l = "forge" then "Forge"
  else if l = "neoforge" then "NeoForge"
  else if l = "fabric" then "Fabric"
  else if l = "quilt" then "Quilt"
  else
    match l.toList with
    | [] => ""
    | c :: rest => String.mk (Char.toUpper c :: rest)

/-- One entry of `latestFilesIndexes` (`cf.rs:16-27`). -/
structure CfLatestFileIndex where
  game_version : String
  file_id : Nat
  filename : String
  release_type : Nat
  mod_loader : Option Nat
deriving DecidableEq

/-- The loader tag of an index entry (`cf.rs:217-220`). -/
def cfTag (idx : CfLatestFileIndex) : String :=
  match idx.mod_loader with
  | some code => cf_mod_loader_to_tag code
  | none => "Unknown"

/-- The candidate filter of `get_latest_cf_file`'s inner loop (`cf.rs:221-224`). -/
def cfAccept (mc_version target : String) (rt : Nat) (idx : CfLatestFileIndex) : Bool :=
  idx.release_type = rt && (idx.game_version = mc_version && cfTag idx = target)

/-- Embedding of `get_latest_cf_file` (`cf.rs:169-232`), its selection core over the fetched
`latestFilesIndexes` list: scan release tiers 1 (Release), 2 (Beta), 3 (Alpha)
in that order; within a tier take the first matching entry in list order.
Tier loop of `get_latest_cf_file`. -/
def cfPickGo (indexes : List CfLatestFileIndex) (mc_version target : String) :
    List Nat → Option (Nat × String × Nat)
  | [] => none
  | rt :: rest =>
    match indexes.find? (cfAccept mc_version target rt) with
    | some idx =>
      some (idx.file_id,
        ((extract_version idx.filename.toList).map String.mk).getD (Nat.repr idx.file_id),
        idx.release_type)
    | none => cfPickGo indexes mc_version target rest

def get_latest_cf_file (indexes : List CfLatestFileIndex) (mc_version loader : String) :
    Option (Nat × String × Nat) :=
  cfPickGo indexes mc_version (loader_name_to_tag loader) [1, 2, 3]

/-! ### Modrinth resolution (`mr.rs`) -/

/-- A Modrinth version record (`mr.rs:57-65`). -/
structure MrVersion where
  id : String
  version_number : String
  version_type : String
  game_versions : List String
  loaders : List String
  date_published : String
deriving DecidableEq

/-- Lexicographic `≤` on character lists (by code point, which agrees with
Rust's byte-wise `String::cmp` ordering). -/
def charListLE : Txt → Txt → Bool
  | [], _ => true
  | _ :: _, [] => false
  | a :: as, b :: bs =>
    if a.toNat < b.toNat then true
    else if b.toNat < a.toNat then false
    else charListLE as bs

/-- The `String` ordering of Rust's `Ord for String` (lexicographic). -/
def strLE (a b : String) : Prop := charListLE a.toList b.toList = true

instance : DecidableRel strLE := fun a b =>
  inferInstanceAs (Decidable (charListLE a.toList b.toList = true))

/-- The candidate filter of `get_latest_mr_version`'s inner loop (`mr.rs:143-148`). -/
def mrAccept (mc_version ll t : String) (v : MrVersion) : Bool :=
  v.version_type = t && (v.game_versions.contains mc_version
    && v.loaders.any (fun l => lowerStr l = ll))

/-- Embedding of `get_latest_mr_version` (`mr.rs:132-158`), its selection core over the
fetched version list: stable-sort by `date_published` descending, then scan
tiers release, beta, alpha, returning the first match.
Tier loop of `get_latest_mr_version`. -/
def mrPickGo (sorted : List MrVersion) (mc_version ll : String) :
    List String → Option (String × String × String)
  | [] => none
  | t :: rest =>
    match sorted.find? (mrAccept mc_version ll t) with
    | some v => some (v.id, v.version_number, v.version_type)
    | none => mrPickGo sorted mc_version ll rest

def get_latest_mr_version (versions : List MrVersion) (mc_version loader : String) :
    Option (String × String × String) :=
  mrPickGo
    (List.insertionSort (fun a b => strLE b.date_published a.date_published) versions)
    mc_version (lowerStr loader) ["release", "beta", "alpha"]

/-! ### Batch operations (`operations.rs`) -/

/-- Embedding of `update_dependencies_batch` (`operations.rs:464-490`): `process_update`
(network + file I/O) is abstracted as the oracle `pu`; each item's outcome is
appended to the output string and the loop always continues (the Tauri command
always returns `Ok`).  `ubEntry` is the per-item output entry. -/
def ubEntry (pu : String → Except String String) (item : String) : String :=
  match pu item with
  | .ok res => "\n[" ++ item ++ "] " ++ res ++ "\n"
  | .error err => "\n[" ++ item ++ "] ❌ " ++ err ++ "\n"

def update_dependencies_batch (pu : String → Except String String) (items : List String) :
    String :=
  items.foldl (fun out item => out ++ ubEntry pu item) ""

/-- Model of `str::parse::<u32>`: optional leading `+`, then one or more digits, value
within `u32` range. -/
def parse_u32 (s : String) : Option Nat :=
  match s.toList with
  | [] => none
  | l =>
    let l2 := match l with
      | '+' :: rest => rest
      | _ => l
    if l2 ≠ [] ∧ l2.all Char.isDigit then
      if digitsToNat l2 ≤ 4294967295 then some (digitsToNat l2) else none
    else none

/-- The per-item loop of `apply_selected_versions_batch`'s CurseForge branch
(`operations.rs:552-567`): any `?`-propagated failure (non-numeric id, project
metadata fetch, unknown loader) aborts the whole batch with that error;
`get_project_meta` is abstracted as the oracle `meta`. -/
def applySelectedLoop (meta : Nat → Except String (String × Nat)) (loader : String) :
    List (String × String) → Txt → String → Except String (Txt × String)
  | [], content, summary => .ok (content, summary)
  | (pid_s, sel_s) :: rest, content, summary =>
    match parse_u32 pid_s with
    | none => .error "Project ID must be a number for CurseForge"
    | some pid =>
      match parse_u32 sel_s with
      | none => .error "Selected ID must be a number for CurseForge"
      | some fid =>
        match meta pid with
        | .error e => .error e
        | .ok (slug, modid) =>
          match generate_dep loader.toList slug.toList (Nat.repr modid).toList fid with
          | .error e => .error (String.mk e)
          | .ok dl =>
            applySelectedLoop meta loader rest
              (update_or_insert_dependency content (Nat.repr modid).toList dl)
              (summary ++ "✅ " ++ String.mk dl ++ " → File ID: " ++ Nat.repr fid ++ "\n")

/-- Embedding of `apply_selected_versions_batch` (`operations.rs:532-585`), CurseForge
branch, over in-memory build-script text (the file read/write wrapper and the
api-key plumbing are outside the model). -/
def apply_selected_versions_batch (meta : Nat → Except String (String × Nat))
    (gradle : Txt) (selections : List (String × String)) (loader : String) :
    Except String (Txt × String) :=
  applySelectedLoop meta loader selections (ensure_curse_maven_repo gradle) ""

/-- Embedding of `get_batch_mod_briefs` (`operations.rs:122-197`): the per-item fetch is
abstracted as the oracle `brief`, and the `buffer_unordered(4)` completion
order is abstracted to input order; faithful to the loop's error handling
(`Err(e) => return Err(e)`): the first failing item aborts the whole batch.
Collection loop of `get_batch_mod_briefs`. -/
def briefsGo (brief : String → Except String String) :
    List String → List String → Except String (List String)
  | [], acc => .ok acc.reverse
  | it :: rest, acc =>
    match brief it with
    | .ok b => briefsGo brief rest (b :: acc)
    | .error e => .error e

def get_batch_mod_briefs (brief : String → Except String String) (items : List String) :
    Except String (List String) :=
  briefsGo brief items []

/-- Number of positions of `hay` at which `needle` starts (used to count
`repositories` block headers). -/
def countOccur (needle : Txt) : Txt → Nat
  | [] => 0
  | c :: rest =>
    (if needle.isPrefixOf (c :: rest) then 1 else 0) + countOccur needle rest

end MDU

namespace MDU

/-- The sample manifest index of the spec's fuzzy-ordering example: only the
base version `1.20` is known (rank 5). -/
def sampleIndex : String → Option Nat := fun s => if s = "1.20" then some 5 else none

/-- Sample Modrinth Alpha candidate matching platform `1.20` / loader `Fabric`. -/
def mrAlphaSample : MrVersion :=
  ⟨"idA", "1.0", "alpha", ["1.20"], ["fabric"], "2024-02-01T00:00:00Z"⟩

/-- Sample Modrinth Release candidate matching platform `1.20` / loader `Fabric`. -/
def mrReleaseSample : MrVersion :=
  ⟨"idR", "2.0", "release", ["1.20"], ["fabric"], "2024-01-01T00:00:00Z"⟩

/-- Sample CurseForge Alpha index entry matching `1.20` / `Fabric`. -/
def cfAlphaSample : CfLatestFileIndex := ⟨"1.20", 11, "a-1.0.jar", 3, some 4⟩

/-- Sample CurseForge Release index entry matching `1.20` / `Fabric`. -/
def cfReleaseSample : CfLatestFileIndex := ⟨"1.20", 22, "b-2.0.jar", 1, some 4⟩

/-- First of two matching Release index entries (internal id 1). -/
def cfRelFirst : CfLatestFileIndex := ⟨"1.20", 1, "a-1.0.jar", 1, some 4⟩

/-- Second of two matching Release index entries (internal id 2). -/
def cfRelSecond : CfLatestFileIndex := ⟨"1.20", 2, "b-2.0.jar", 1, some 4⟩

set_option maxRecDepth 10000

/-! ## Theorems -/

/-- Claim C7: the block locator finds line-anchored `name {` occurrences at
brace depth exactly 0 and returns the range from just after the opening brace
to the matching closing brace: on `"foo { bar { } baz }"` the located range
for top-level `foo` is `(5, 18)`, spanning exactly `" bar { } baz "` with the
nested `bar` block intact inside it; and an inner, non-top-level `foo` block
(preceded by depth 1) is skipped in favour of a later top-level one. -/
theorem block_locator_top_level_ranges :
    find_top_level_block_range "foo".toList "foo \x7b bar \x7b \x7d baz \x7d".toList = some (5, 18)
    ∧ (("foo \x7b bar \x7b \x7d baz \x7d".toList.take 18).drop 5 = " bar \x7b \x7d baz ".toList)
    ∧ braceDepth ("a \x7b\n foo \x7b\n \x7d\n\x7d\nfoo \x7bx\x7d".toList.take 4) = 1
    ∧ find_top_level_block_range "foo".toList "a \x7b\n foo \x7b\n \x7d\n\x7d\nfoo \x7bx\x7d".toList
        = some (21, 22)
    ∧ (("a \x7b\n foo \x7b\n \x7d\n\x7d\nfoo \x7bx\x7d".toList.take 22).drop 21 = "x".toList) := by
  refine ⟨by decide, by decide, by decide, by decide, by decide⟩

/-- Claim C3 (counterexample): `extract_version` on
`"MyMod-3.2.1-forge-1.20.jar"` does not return `"3.2.1"` — the greedy
`[-+][a-zA-Z0-9_.-]+` suffix of `VERSION_RE` swallows the rest of the
file name. -/
theorem extract_version_first_token_refuted :
    extract_version "MyMod-3.2.1-forge-1.20.jar".toList ≠ some "3.2.1".toList := by
  decide

/-- Claim C3 (amended): `extract_version` scans left to right and returns the
first `VERSION_RE` token containing a `.`, where the optional `[-+]…` suffix
is matched greedily: on `"MyMod-3.2.1-forge-1.20.jar"` the token is the whole
tail `"3.2.1-forge-1.20.jar"`; `"MyMod-build42.jar"` yields no dotted token
(the bare `42` is skipped); and every returned token contains a `.`. -/
theorem extract_version_greedy_first_token :
    (∀ text v, extract_version text = some v → '.' ∈ v)
    ∧ extract_version "MyMod-3.2.1-forge-1.20.jar".toList
        = some "3.2.1-forge-1.20.jar".toList
    ∧ extract_version "MyMod-build42.jar".toList = none := by
  refine ⟨fun text v h => ?_, by decide, by decide⟩
  unfold extract_version at h
  generalize 0 = i at h
  generalize text.length + 1 = fuel at h
  induction fuel generalizing i v with
  | zero => simp [extractGo] at h
  | succ fuel ih =>
    rw [extractGo] at h
    split at h
    · simp at h
    · split at h
      · dsimp only at h
        split at h
        · next hd => cases h; exact hd
        · exact ih _ _ h
      · exact ih _ _ h

/-- Witness: the general dot-property of `extract_version` applied at the
concrete file name of the spec's example. -/
theorem extract_version_greedy_first_token_witness :
    '.' ∈ "3.2.1-forge-1.20.jar".toList :=
  extract_version_greedy_first_token.1 "MyMod-3.2.1-forge-1.20.jar".toList
    "3.2.1-forge-1.20.jar".toList extract_version_greedy_first_token.2.1

/-- Totality of the `order_mc_versions_cf` comparator. -/
theorem keyLE_total (a b : Nat × Nat × Nat) : keyLE a b ∨ keyLE b a := by
  unfold keyLE; omega

/-- Transitivity of the `order_mc_versions_cf` comparator. -/
theorem keyLE_trans (a b c : Nat × Nat × Nat) :
    keyLE a b → keyLE b c → keyLE a c := by
  unfold keyLE; omega

/-- The dedup loop keeps a subsequence of the incoming version strings. -/
theorem dedupLoop_sublist :
    ∀ (l : List ((Nat × Nat × Nat) × String)) (seen : List String),
      List.Sublist (dedupLoop l seen) (l.map Prod.snd) := by
  intro l
  induction l with
  | nil => intro seen; simp [dedupLoop]
  | cons p rest ih =>
    intro seen
    rw [dedupLoop]
    split
    · exact (ih seen).trans (List.sublist_cons_self _ _)
    · exact (ih _).cons₂ _

/-- Claim C2 (counterexample): with all three inputs sharing base rank 5,
`order_mc_versions_cf` does not return `["1.20-rc2", "1.20-rc1", "1.20"]` —
the comparator gives plain releases suffix-kind 0, sorting them before the
release candidates, so `"1.20"` comes first. -/
theorem order_fuzzy_suffix_example_refuted :
    order_mc_versions_cf sampleIndex ["1.20-rc1", "1.20-rc2", "1.20"]
      ≠ ["1.20-rc2", "1.20-rc1", "1.20"] := by
  decide

/-- Claim C2 (amended): within a shared base rank the fuzzy orderer sorts by
suffix kind plain release (0) first, then `-rcN` (1), then `-preN` (2), then
bare `snapshot` (3), with higher `N` before lower `N` inside a kind
(rank `65535 - N`); in general the output is sorted by the `(idx, kind, rank)`
key, and in particular the spec's example yields `["1.20", "1.20-rc2",
"1.20-rc1"]`. -/
theorem order_fuzzy_plain_release_first :
    (∀ (index : String → Option Nat) (input : List String),
      (order_mc_versions_cf index input).Pairwise
        (fun a b => keyLE (cfKey index a) (cfKey index b)))
    ∧ order_mc_versions_cf sampleIndex ["1.20-rc1", "1.20-rc2", "1.20"]
        = ["1.20", "1.20-rc2", "1.20-rc1"]
    ∧ order_mc_versions_cf sampleIndex
        ["1.20-pre1", "1.20-rc1", "1.20 snapshot", "1.20"]
        = ["1.20", "1.20-rc1", "1.20-pre1", "1.20 snapshot"]
    ∧ (cfKey sampleIndex "1.20").2 = (0, 0)
    ∧ (cfKey sampleIndex "1.20-rc2").2 = (1, 65533)
    ∧ (cfKey sampleIndex "1.20-rc1").2 = (1, 65534)
    ∧ (cfKey sampleIndex "1.20-pre1").2 = (2, 65534)
    ∧ (cfKey sampleIndex "1.20 snapshot").2 = (3, 0) := by
  refine ⟨fun index input => ?_, by decide, by decide, by decide, by decide,
    by decide, by decide, by decide⟩
  unfold order_mc_versions_cf
  have hsorted :
      (List.insertionSort (fun a b => keyLE a.1 b.1)
        (input.map (fun s => (cfKey index s, s)))).Pairwise
        (fun a b : (Nat × Nat × Nat) × String => keyLE a.1 b.1) := by
    haveI : IsTotal ((Nat × Nat × Nat) × String) (fun a b => keyLE a.1 b.1) :=
      ⟨fun a b => keyLE_total a.1 b.1⟩
    haveI : IsTrans ((Nat × Nat × Nat) × String) (fun a b => keyLE a.1 b.1) :=
      ⟨fun a b c => keyLE_trans a.1 b.1 c.1⟩
    exact List.sorted_insertionSort _ _
  have hmem : ∀ p ∈ List.insertionSort (fun a b => keyLE a.1 b.1)
      (input.map (fun s => (cfKey index s, s))), p.1 = cfKey index p.2 := by
    intro p hp
    have hp' : p ∈ input.map (fun s => (cfKey index s, s)) :=
      (List.perm_insertionSort _ _).subset hp
    obtain ⟨s, _, rfl⟩ := List.mem_map.mp hp'
    rfl
  have h2 := hsorted.imp_of_mem
    (S := fun a b : (Nat × Nat × Nat) × String =>
      keyLE (cfKey index a.2) (cfKey index b.2))
    (fun {a b} ha hb hr => by
      show keyLE (cfKey index a.2) (cfKey index b.2)
      rw [← hmem _ ha, ← hmem _ hb]; exact hr)
  have h3 : ((List.insertionSort (fun a b => keyLE a.1 b.1)
      (input.map (fun s => (cfKey index s, s)))).map Prod.snd).Pairwise
      (fun a b => keyLE (cfKey index a) (cfKey index b)) :=
    List.pairwise_map.mpr h2
  exact List.Pairwise.sublist (dedupLoop_sublist _ []) h3

/-- Reflexivity of `charListLE`. -/
theorem charListLE_refl : ∀ l : Txt, charListLE l l = true := by
  intro l
  induction l with
  | nil => rfl
  | cons c cs ih => simp [charListLE, ih]

/-- Reflexivity of `strLE`. -/
theorem strLE_refl (s : String) : strLE s s := charListLE_refl _

/-- Totality of `charListLE`. -/
theorem charListLE_total : ∀ a b : Txt, charListLE a b = true ∨ charListLE b a = true := by
  intro a
  induction a with
  | nil => intro b; left; rfl
  | cons x xs ih =>
    intro b
    cases b with
    | nil => right; rfl
    | cons y ys =>
      simp only [charListLE]
      rcases Nat.lt_trichotomy x.toNat y.toNat with h | h | h
      · left; simp [h]
      · rcases ih ys with h' | h' <;> [left; right] <;> simp [h, h']
      · right; simp [h]

/-- Transitivity of `charListLE`. -/
theorem charListLE_trans :
    ∀ a b c : Txt, charListLE a b = true → charListLE b c = true →
      charListLE a c = true := by
  intro a
  induction a with
  | nil => intro b c _ _; rfl
  | cons x xs ih =>
    intro b c hab hbc
    cases b with
    | nil => simp [charListLE] at hab
    | cons y ys =>
      cases c with
      | nil => simp [charListLE] at hbc
      | cons z zs =>
        simp only [charListLE] at hab hbc ⊢
        split_ifs at hab hbc ⊢ <;>
          first
            | rfl
            | omega
            | exact ih ys zs hab hbc

/-- On a list sorted by descending `date_published`, `find?` returns a match
with maximal date among all matches. -/
theorem find?_max_date {p : MrVersion → Bool} :
    ∀ {l : List MrVersion} {m : MrVersion},
      l.Pairwise (fun a b => strLE b.date_published a.date_published) →
      l.find? p = some m →
      ∀ v ∈ l, p v → strLE v.date_published m.date_published := by
  intro l
  induction l with
  | nil => intro m _ hf; simp at hf
  | cons h t ih =>
    intro m hp hf v hv hpv
    by_cases hph : p h
    · rw [List.find?_cons_of_pos _ hph] at hf
      cases hf
      rcases List.mem_cons.mp hv with rfl | hvt
      · exact strLE_refl _
      · exact (List.pairwise_cons.mp hp).1 v hvt
    · rw [List.find?_cons_of_neg _ hph] at hf
      rcases List.mem_cons.mp hv with rfl | hvt
      · exact absurd hpv hph
      · exact ih (List.pairwise_cons.mp hp).2 hf v hvt hpv

/-- The `find?` function returns the first match in list order. -/
theorem find?_first {α : Type} {p : α → Bool} :
    ∀ {l : List α} {x : α}, l.find? p = some x →
      ∃ l1 l2, l = l1 ++ x :: l2 ∧ ∀ y ∈ l1, p y = false := by
  intro l
  induction l with
  | nil => intro x hf; simp at hf
  | cons h t ih =>
    intro x hf
    by_cases hph : p h
    · rw [List.find?_cons_of_pos _ hph] at hf
      cases hf
      exact ⟨[], t, rfl, by simp⟩
    · rw [List.find?_cons_of_neg _ hph] at hf
      obtain ⟨l1, l2, rfl, hl1⟩ := ih hf
      refine ⟨h :: l1, l2, rfl, ?_⟩
      intro y hy
      rcases List.mem_cons.mp hy with rfl | hy'
      · simpa using hph
      · exact hl1 y hy'

/-- The Modrinth version list sorted by the comparator of `mr.rs:138` is
pairwise descending in `date_published`. -/
theorem mr_sorted_pairwise (versions : List MrVersion) :
    (List.insertionSort (fun a b => strLE b.date_published a.date_published)
        versions).Pairwise
      (fun a b => strLE b.date_published a.date_published) := by
  haveI : IsTotal MrVersion (fun a b => strLE b.date_published a.date_published) :=
    ⟨fun a b => charListLE_total b.date_published.toList a.date_published.toList⟩
  haveI : IsTrans MrVersion (fun a b => strLE b.date_published a.date_published) :=
    ⟨fun a b c hab hbc =>
      charListLE_trans c.date_published.toList b.date_published.toList
        a.date_published.toList hbc hab⟩
  exact List.sorted_insertionSort _ _

/-- A tier-`t` hit of the Modrinth selection loop: the found version belongs
to the input list, carries tier `t`, satisfies the filter, and has maximal
publish date among the filter's matches. -/
theorem mr_found_tier {sorted versions : List MrVersion} {mc ll t : String}
    {v : MrVersion}
    (hperm : sorted.Perm versions)
    (hpair : sorted.Pairwise (fun a b => strLE b.date_published a.date_published))
    (hf : sorted.find? (mrAccept mc ll t) = some v) :
    v ∈ versions ∧ v.version_type = t ∧ mrAccept mc ll v.version_type v = true
      ∧ ∀ w ∈ versions, mrAccept mc ll v.version_type w = true →
          strLE w.date_published v.date_published := by
  have hacc := List.find?_some hf
  have htype : v.version_type = t := by
    simp [mrAccept] at hacc
    exact hacc.1
  refine ⟨hperm.subset (List.mem_of_find?_eq_some hf), htype,
    by rw [htype]; exact hacc, ?_⟩
  intro w hw hacc'
  rw [htype] at hacc'
  exact find?_max_date hpair hf w (hperm.mem_iff.mpr hw) hacc'

/-- A tier was skipped: no element of the input list passes its filter. -/
theorem mr_none_tier {sorted versions : List MrVersion} {mc ll t : String}
    (hperm : sorted.Perm versions)
    (hf : sorted.find? (mrAccept mc ll t) = none) :
    ∀ w ∈ versions, mrAccept mc ll t w = false := by
  intro w hw
  simpa using List.find?_eq_none.mp hf w (hperm.mem_iff.mpr hw)

/-- Full characterisation of a successful Modrinth resolution
(`get_latest_mr_version`): the result comes from a version of the input list
that passes the platform/loader filter, has maximal publish date among its
tier's matches, and its tier is the best nonempty one in the fixed priority
release > beta > alpha. -/
theorem mr_master (versions : List MrVersion) (mc loader : String)
    (r : String × String × String)
    (hres : get_latest_mr_version versions mc loader = some r) :
    ∃ v ∈ versions, r = (v.id, v.version_number, v.version_type)
      ∧ mrAccept mc (lowerStr loader) v.version_type v = true
      ∧ (∀ w ∈ versions, mrAccept mc (lowerStr loader) v.version_type w = true →
          strLE w.date_published v.date_published)
      ∧ (v.version_type = "release"
        ∨ (v.version_type = "beta"
            ∧ ∀ w ∈ versions, mrAccept mc (lowerStr loader) "release" w = false)
        ∨ (v.version_type = "alpha"
            ∧ (∀ w ∈ versions, mrAccept mc (lowerStr loader) "release" w = false)
            ∧ ∀ w ∈ versions, mrAccept mc (lowerStr loader) "beta" w = false)) := by
  unfold get_latest_mr_version at hres
  have hperm := List.perm_insertionSort
    (fun a b : MrVersion => strLE b.date_published a.date_published) versions
  have hpair := mr_sorted_pairwise versions
  rw [mrPickGo] at hres
  cases hf1 : (List.insertionSort
      (fun a b : MrVersion => strLE b.date_published a.date_published)
      versions).find? (mrAccept mc (lowerStr loader) "release") with
  | some v =>
    rw [hf1] at hres
    cases hres
    obtain ⟨hv, htype, hacc, hmax⟩ := mr_found_tier hperm hpair hf1
    exact ⟨v, hv, rfl, hacc, hmax, Or.inl htype⟩
  | none =>
    rw [hf1] at hres
    rw [mrPickGo] at hres
    cases hf2 : (List.insertionSort
        (fun a b : MrVersion => strLE b.date_published a.date_published)
        versions).find? (mrAccept mc (lowerStr loader) "beta") with
    | some v =>
      rw [hf2] at hres
      cases hres
      obtain ⟨hv, htype, hacc, hmax⟩ := mr_found_tier hperm hpair hf2
      exact ⟨v, hv, rfl, hacc, hmax,
        Or.inr (Or.inl ⟨htype, mr_none_tier hperm hf1⟩)⟩
    | none =>
      rw [hf2] at hres
      rw [mrPickGo] at hres
      cases hf3 : (List.insertionSort
          (fun a b : MrVersion => strLE b.date_published a.date_published)
          versions).find? (mrAccept mc (lowerStr loader) "alpha") with
      | some v =>
        rw [hf3] at hres
        cases hres
        obtain ⟨hv, htype, hacc, hmax⟩ := mr_found_tier hperm hpair hf3
        exact ⟨v, hv, rfl, hacc, hmax,
          Or.inr (Or.inr ⟨htype, mr_none_tier hperm hf1, mr_none_tier hperm hf2⟩)⟩
      | none =>
        rw [hf3, mrPickGo] at hres
        cases hres

/-- Full characterisation of a successful CurseForge resolution
(`get_latest_cf_file`): the result comes from the first index entry, in
registry list order, that passes the filter at the best nonempty release
tier in the fixed priority 1 (Release) > 2 (Beta) > 3 (Alpha). -/
theorem cf_master (indexes : List CfLatestFileIndex) (mc loader : String)
    (r : Nat × String × Nat)
    (hres : get_latest_cf_file indexes mc loader = some r) :
    ∃ idx ∈ indexes,
      r = (idx.file_id,
            ((extract_version idx.filename.toList).map String.mk).getD
              (Nat.repr idx.file_id),
            idx.release_type)
      ∧ cfAccept mc (loader_name_to_tag loader) idx.release_type idx = true
      ∧ (∃ l1 l2, indexes = l1 ++ idx :: l2
          ∧ ∀ y ∈ l1, cfAccept mc (loader_name_to_tag loader) idx.release_type y = false)
      ∧ (idx.release_type = 1
        ∨ (idx.release_type = 2
            ∧ ∀ y ∈ indexes, cfAccept mc (loader_name_to_tag loader) 1 y = false)
        ∨ (idx.release_type = 3
            ∧ (∀ y ∈ indexes, cfAccept mc (loader_name_to_tag loader) 1 y = false)
            ∧ ∀ y ∈ indexes, cfAccept mc (loader_name_to_tag loader) 2 y = false)) := by
  unfold get_latest_cf_file at hres
  rw [cfPickGo] at hres
  cases hf1 : indexes.find? (cfAccept mc (loader_name_to_tag loader) 1) with
  | some idx =>
    rw [hf1] at hres
    cases hres
    have hacc := List.find?_some hf1
    have hrt : idx.release_type = 1 := by
      simp [cfAccept] at hacc
      exact hacc.1
    exact ⟨idx, List.mem_of_find?_eq_some hf1, rfl,
      by rw [hrt]; exact hacc, by rw [hrt]; exact find?_first hf1, Or.inl hrt⟩
  | none =>
    rw [hf1] at hres
    rw [cfPickGo] at hres
    cases hf2 : indexes.find? (cfAccept mc (loader_name_to_tag loader) 2) with
    | some idx =>
      rw [hf2] at hres
      cases hres
      have hacc := List.find?_some hf2
      have hrt : idx.release_type = 2 := by
        simp [cfAccept] at hacc
        exact hacc.1
      refine ⟨idx, List.mem_of_find?_eq_some hf2, rfl,
        by rw [hrt]; exact hacc, by rw [hrt]; exact find?_first hf2,
        Or.inr (Or.inl ⟨hrt, ?_⟩)⟩
      intro y hy
      simpa using List.find?_eq_none.mp hf1 y hy
    | none =>
      rw [hf2] at hres
      rw [cfPickGo] at hres
      cases hf3 : indexes.find? (cfAccept mc (loader_name_to_tag loader) 3) with
      | some idx =>
        rw [hf3] at hres
        cases hres
        have hacc := List.find?_some hf3
        have hrt : idx.release_type = 3 := by
          simp [cfAccept] at hacc
          exact hacc.1
        refine ⟨idx, List.mem_of_find?_eq_some hf3, rfl,
          by rw [hrt]; exact hacc, by rw [hrt]; exact find?_first hf3,
          Or.inr (Or.inr ⟨hrt, ?_, ?_⟩)⟩
        · intro y hy
          simpa using List.find?_eq_none.mp hf1 y hy
        · intro y hy
          simpa using List.find?_eq_none.mp hf2 y hy
      | none =>
        rw [hf3, cfPickGo] at hres
        cases hres

/-- Claim C4 (counterexample): for the CurseForge resolver — a registry
variant without timestamps — two matching Release candidates with internal
ids 1 and 2 (in registry list order) do NOT resolve to the highest id: the
first in list order (id 1) is returned, not id 2. -/
theorem cf_resolver_highest_id_refuted :
    cfAccept "1.20" (loader_name_to_tag "Fabric") 1 cfRelFirst = true
    ∧ cfAccept "1.20" (loader_name_to_tag "Fabric") 1 cfRelSecond = true
    ∧ cfRelFirst.file_id = 1 ∧ cfRelSecond.file_id = 2
    ∧ (get_latest_cf_file [cfRelFirst, cfRelSecond] "1.20" "Fabric").map Prod.fst
        = some 1
    ∧ (get_latest_cf_file [cfRelFirst, cfRelSecond] "1.20" "Fabric").map Prod.fst
        ≠ some cfRelSecond.file_id := by
  refine ⟨by decide, by decide, by decide, by decide, by decide, by decide⟩

/-- Claim C4 (amended): both resolvers filter candidates on the target
platform version and resolved loader tag and return one of the best release
tier present, under the fixed priority Release > Beta > Alpha; within that
tier, the Modrinth resolver returns the most recently published candidate
(maximal `date_published` in the lexicographic string order used by the sort),
while the CurseForge resolver — whose `latestFilesIndexes` carry no
timestamp — returns the first matching entry in registry list order (not the
highest internal id); in particular an Alpha and a Release candidate both
matching `1.20`/`Fabric` resolve to the Release one on either registry. -/
theorem registry_resolver_tier_policy :
    (∀ (versions : List MrVersion) (mc loader : String) r,
      get_latest_mr_version versions mc loader = some r →
      ∃ v ∈ versions, r = (v.id, v.version_number, v.version_type)
        ∧ mrAccept mc (lowerStr loader) v.version_type v = true
        ∧ (∀ w ∈ versions, mrAccept mc (lowerStr loader) v.version_type w = true →
            strLE w.date_published v.date_published)
        ∧ (v.version_type = "release"
          ∨ (v.version_type = "beta"
              ∧ ∀ w ∈ versions, mrAccept mc (lowerStr loader) "release" w = false)
          ∨ (v.version_type = "alpha"
              ∧ (∀ w ∈ versions, mrAccept mc (lowerStr loader) "release" w = false)
              ∧ ∀ w ∈ versions, mrAccept mc (lowerStr loader) "beta" w = false)))
    ∧ (∀ (indexes : List CfLatestFileIndex) (mc loader : String) r,
      get_latest_cf_file indexes mc loader = some r →
      ∃ idx ∈ indexes, r.1 = idx.file_id ∧ r.2.2 = idx.release_type
        ∧ cfAccept mc (loader_name_to_tag loader) idx.release_type idx = true
        ∧ (∃ l1 l2, indexes = l1 ++ idx :: l2
            ∧ ∀ y ∈ l1,
                cfAccept mc (loader_name_to_tag loader) idx.release_type y = false)
        ∧ (idx.release_type = 1
          ∨ (idx.release_type = 2
              ∧ ∀ y ∈ indexes, cfAccept mc (loader_name_to_tag loader) 1 y = false)
          ∨ (idx.release_type = 3
              ∧ (∀ y ∈ indexes, cfAccept mc (loader_name_to_tag loader) 1 y = false)
              ∧ ∀ y ∈ indexes, cfAccept mc (loader_name_to_tag loader) 2 y = false)))
    ∧ get_latest_mr_version [mrAlphaSample, mrReleaseSample] "1.20" "Fabric"
        = some ("idR", "2.0", "release")
    ∧ get_latest_cf_file [cfAlphaSample, cfReleaseSample] "1.20" "Fabric"
        = some (22, "2.0", 1)
    ∧ get_latest_cf_file [cfRelFirst, cfRelSecond] "1.20" "Fabric"
        = some (1, "1.0", 1) := by
  refine ⟨mr_master, fun indexes mc loader r hres => ?_, by decide, by decide,
    by decide⟩
  obtain ⟨idx, hidx, hr, hacc, hfirst, htier⟩ := cf_master indexes mc loader r hres
  exact ⟨idx, hidx, by rw [hr], by rw [hr], hacc, hfirst, htier⟩

/-- Witness: the tier-policy theorem applied at a concrete singleton Alpha
candidate list — the resolver answers with tier alpha, and the theorem's
alpha branch certifies that no beta candidate matched. -/
theorem registry_resolver_tier_policy_witness :
    mrAccept "1.20" (lowerStr "Fabric") "beta" mrAlphaSample = false := by
  obtain ⟨v, hv, hr, _, _, htier⟩ :=
    registry_resolver_tier_policy.1 [mrAlphaSample] "1.20" "Fabric"
      ("idA", "1.0", "alpha") (by decide)
  rcases htier with ht | ⟨ht, _⟩ | ⟨_, _, hbeta⟩
  · rw [List.mem_singleton.mp hv] at ht
    exact absurd ht (by decide)
  · rw [List.mem_singleton.mp hv] at ht
    exact absurd ht (by decide)
  · exact hbeta mrAlphaSample (List.mem_singleton.mpr rfl)

/-- An infix of `t` is an infix of `s ++ t`. -/
theorem isInfixAppendRight {l t : Txt} (s : Txt) (h : l <:+: t) : l <:+: s ++ t := by
  obtain ⟨u, v, rfl⟩ := h
  exact ⟨s ++ u, v, by simp [List.append_assoc]⟩

/-- An infix of `s` is an infix of `s ++ t`. -/
theorem isInfixAppendLeft {l s : Txt} (t : Txt) (h : l <:+: s) : l <:+: s ++ t := by
  obtain ⟨u, v, rfl⟩ := h
  exact ⟨u, v ++ t, by simp [List.append_assoc]⟩

/-- Each per-item output entry of `update_dependencies_batch` carries its
item's `[item]` marker, whether the item succeeded or failed. -/
theorem ubEntry_marker (pu : String → Except String String) (item : String) :
    ("[" ++ item ++ "]").toList <:+: (ubEntry pu item).toList := by
  unfold ubEntry
  cases pu item with
  | ok res =>
    refine ⟨['\n'], ' ' :: res.toList ++ ['\n'], ?_⟩
    simp only [String.toList, String.data_append, List.append_assoc]
    rfl
  | error err =>
    refine ⟨['\n'], ' ' :: '❌' :: ' ' :: err.toList ++ ['\n'], ?_⟩
    simp only [String.toList, String.data_append, List.append_assoc]
    rfl

/-- The batch fold keeps every marker already present in the accumulator. -/
theorem ubFold_mono (pu : String → Except String String) :
    ∀ (items : List String) (acc : String) (l : Txt), l <:+: acc.toList →
      l <:+: (items.foldl (fun out item => out ++ ubEntry pu item) acc).toList := by
  intro items
  induction items with
  | nil => intro acc l h; exact h
  | cons it rest ih =>
    intro acc l h
    refine ih _ l ?_
    simp only [String.toList, String.data_append]
    exact isInfixAppendLeft _ h

/-- Every item of the batch contributes its `[item]` marker to the fold
output, from any starting accumulator. -/
theorem ubFold_marker (pu : String → Except String String) :
    ∀ (items : List String) (acc : String) (item : String), item ∈ items →
      ("[" ++ item ++ "]").toList <:+:
        (items.foldl (fun out it => out ++ ubEntry pu it) acc).toList := by
  intro items
  induction items with
  | nil => intro acc item hmem; cases hmem
  | cons it rest ih =>
    intro acc item hmem
    rcases List.mem_cons.mp hmem with rfl | hmem'
    · rw [List.foldl_cons]
      refine ubFold_mono pu rest _ _ ?_
      simp only [String.toList, String.data_append]
      exact isInfixAppendRight _ (ubEntry_marker pu item)
    · rw [List.foldl_cons]
      exact ih _ item hmem'

/-- Claim C9 (counterexample): `apply_selected_versions_batch` does not
isolate per-item failures — with a first selection whose project id is not
numeric, the whole batch aborts with that single error and the second
selection is never processed (no item-level error string is produced). -/
theorem apply_selected_batch_aborts :
    apply_selected_versions_batch (fun _ => .ok ("slug", 7)) "".toList
      [("x", "1"), ("2", "3")] "fabric"
      = .error "Project ID must be a number for CurseForge" := by
  rfl

/-- Claim C9 (amended): only `update_dependencies_batch` isolates per-item
failures — every input item, failing or not, contributes its own
`[item]`-tagged entry to the returned output and processing continues past
failures; `get_batch_mod_briefs` and `apply_selected_versions_batch` instead
abort on the first item failure, returning a single error. -/
theorem update_batch_isolates_item_failures :
    (∀ (pu : String → Except String String) (items : List String) (item : String),
      item ∈ items →
      ("[" ++ item ++ "]").toList <:+: (update_dependencies_batch pu items).toList)
    ∧ update_dependencies_batch
        (fun it => if it = "a" then .error "boom" else .ok "fine") ["a", "b"]
        = "\n[a] ❌ boom\n\n[b] fine\n"
    ∧ get_batch_mod_briefs (fun it => if it = "a" then .error "boom" else .ok "ok")
        ["a", "b"] = .error "boom" := by
  refine ⟨fun pu items item hmem => ?_, by rfl, by rfl⟩
  exact ubFold_marker pu items "" item hmem

/-- Witness: the isolation property applied at a concrete batch whose first
item fails — the second item's marker still appears in the output. -/
theorem update_batch_isolates_item_failures_witness :
    ("[" ++ "b" ++ "]").toList <:+:
      (update_dependencies_batch
        (fun it => if it = "a" then .error "boom" else .ok "fine")
        ["a", "b"]).toList :=
  update_batch_isolates_item_failures.1
    (fun it => if it = "a" then .error "boom" else .ok "fine") ["a", "b"] "b"
    (by decide)

/-- Claim C10: when the build script already contains the repository marker
substring anywhere — `https://cursemaven.com` or `curse.maven` for the
CurseForge ensurer, `https://api.modrinth.com/maven` for the Modrinth one —
the ensurer returns the text unchanged, even when the occurrence is inside a
dependency coordinate line and no `repositories` block exists. -/
theorem ensure_repo_marker_short_circuit (T : Txt) :
    ("https://cursemaven.com".toList <:+: T ∨ "curse.maven".toList <:+: T →
      ensure_curse_maven_repo T = T)
    ∧ ("https://api.modrinth.com/maven".toList <:+: T →
      ensure_modrinth_maven_repo T = T) := by
  constructor
  · intro h
    unfold ensure_curse_maven_repo
    rw [if_pos h]
  · intro h
    unfold ensure_modrinth_maven_repo
    rw [if_pos h]

/-- Witness: a script whose only `curse.maven` occurrence sits inside a
dependency line, with no `repositories` block at all, is returned unchanged;
same for the Modrinth marker inside a comment line. -/
theorem ensure_repo_marker_short_circuit_witness :
    find_top_level_block_range "repositories".toList
      "dependencies \x7b\n    modImplementation \"curse.maven:mymod-123:456\"\n\x7d\n".toList
      = none
    ∧ ensure_curse_maven_repo
        "dependencies \x7b\n    modImplementation \"curse.maven:mymod-123:456\"\n\x7d\n".toList
      = "dependencies \x7b\n    modImplementation \"curse.maven:mymod-123:456\"\n\x7d\n".toList
    ∧ ensure_modrinth_maven_repo "// https://api.modrinth.com/maven\n".toList
      = "// https://api.modrinth.com/maven\n".toList :=
  ⟨by decide,
    (ensure_repo_marker_short_circuit _).1 (Or.inr (by decide)),
    (ensure_repo_marker_short_circuit _).2 (by decide)⟩

/-- The CurseForge marker substring occurs inside the inserted stanza. -/
theorem curse_marker_in_stanza : "curse.maven".toList <:+: curseRepoStanza := by
  decide

/-- The Modrinth marker substring occurs inside the inserted stanza. -/
theorem modrinth_marker_in_stanza :
    "https://api.modrinth.com/maven".toList <:+: modrinthRepoStanza := by
  decide

/-- Whatever branch `ensureRepoCore` takes, the inserted stanza (and hence any
substring of it) occurs in the output. -/
theorem ensureRepoCore_contains {marker stanza : Txt} (h : marker <:+: stanza)
    (T : Txt) : marker <:+: ensureRepoCore stanza T := by
  unfold ensureRepoCore
  split
  · exact isInfixAppendLeft _ (isInfixAppendLeft _ (isInfixAppendRight _ h))
  · split
    · exact isInfixAppendLeft _ (isInfixAppendLeft _ (isInfixAppendRight _ h))
    · exact isInfixAppendLeft _ (isInfixAppendLeft _ (isInfixAppendRight _ h))

/-- Claim C5: both repository ensurers are idempotent on every build-script
text (the first application leaves the marker substring in the output, so the
second short-circuits), and double application to a script with no
`repositories` block yields exactly one `repositories` block header. -/
theorem ensure_repo_idempotent :
    (∀ T : Txt,
      ensure_curse_maven_repo (ensure_curse_maven_repo T) = ensure_curse_maven_repo T)
    ∧ (∀ T : Txt,
      ensure_modrinth_maven_repo (ensure_modrinth_maven_repo T)
        = ensure_modrinth_maven_repo T)
    ∧ countOccur "repositories".toList
        (ensure_curse_maven_repo (ensure_curse_maven_repo "".toList)) = 1
    ∧ countOccur "repositories".toList
        (ensure_modrinth_maven_repo (ensure_modrinth_maven_repo "".toList)) = 1 := by
  refine ⟨fun T => ?_, fun T => ?_, by decide, by decide⟩
  · by_cases h : "https://cursemaven.com".toList <:+: T ∨ "curse.maven".toList <:+: T
    · have h1 : ensure_curse_maven_repo T = T := by
        unfold ensure_curse_maven_repo; rw [if_pos h]
      rw [h1, h1]
    · have h1 : ensure_curse_maven_repo T = ensureRepoCore curseRepoStanza T := by
        unfold ensure_curse_maven_repo; rw [if_neg h]
      rw [h1]
      unfold ensure_curse_maven_repo
      rw [if_pos (Or.inr (ensureRepoCore_contains curse_marker_in_stanza T))]
  · by_cases h : "https://api.modrinth.com/maven".toList <:+: T
    · have h1 : ensure_modrinth_maven_repo T = T := by
        unfold ensure_modrinth_maven_repo; rw [if_pos h]
      rw [h1, h1]
    · have h1 : ensure_modrinth_maven_repo T = ensureRepoCore modrinthRepoStanza T := by
        unfold ensure_modrinth_maven_repo; rw [if_neg h]
      rw [h1]
      unfold ensure_modrinth_maven_repo
      rw [if_pos (ensureRepoCore_contains modrinth_marker_in_stanza T)]

/-- Claim C1 (code evaluation at the failing input): the composer produces a
well-formed new dependency line carrying file id 456, yet `extract_new_id_cf`
— whose regex `curse\\.maven:…` literally requires a backslash character —
fails to extract it, so `update_or_insert_dependency` replaces the ENTIRE
matched line, discarding its ` // pinned` comment, instead of substituting
only the trailing file-id fragment as the spec states (the output differs
from the fragment-substituted line, last conjunct).  The in-place branch is
itself also broken: had it been reached, `cfIdReplace` — whose replacement
string `$1456` the regex crate reads as one nonexistent group reference —
would have DELETED the matched coordinate, not updated its id (fourth
conjunct). -/
theorem upsert_always_replaces_whole_line :
    generate_dep "fabric".toList "mymod".toList "123".toList 456
      = .ok "    modImplementation \"curse.maven:mymod-123:456\"".toList
    ∧ extract_new_id_cf "    modImplementation \"curse.maven:mymod-123:456\"".toList
      = none
    ∧ update_or_insert_dependency
        "dependencies \x7b\n    implementation \"curse.maven:mymod-123:99\" // pinned\n\x7d\n".toList
        "123".toList
        "    modImplementation \"curse.maven:mymod-123:456\"".toList
      = "dependencies \x7b\n    modImplementation \"curse.maven:mymod-123:456\"\n\x7d\n".toList
    ∧ cfIdReplace "123".toList "456".toList
        "    implementation \"curse.maven:mymod-123:99\" // pinned".toList
      = "    implementation \"\" // pinned".toList
    ∧ ("dependencies \x7b\n    modImplementation \"curse.maven:mymod-123:456\"\n\x7d\n".toList : Txt)
      ≠ "dependencies \x7b\n    implementation \"curse.maven:mymod-123:456\" // pinned\n\x7d\n".toList :=
  ⟨rfl, by decide, by decide, by decide, by decide⟩

/-- Claim C6 (code evaluation at the failing input): `upsertDependency` is not
idempotent.  On a script whose `dependencies` block holds one whitespace-only
line, the first application inserts the composed line after it; the second
application's line pattern (whose leading `\s*` crosses newlines) matches from
the whitespace line's start, extraction of the replacement id fails (the
`curse\\.maven` backslash slip), and the whole matched span — including the
whitespace-only line — is replaced by the dependency line, changing the text
again. -/
theorem upsert_not_idempotent :
    generate_dep "fabric".toList "mymod".toList "123".toList 456
      = .ok "    modImplementation \"curse.maven:mymod-123:456\"".toList
    ∧ update_or_insert_dependency "dependencies \x7b\n  \n\x7d\n".toList "123".toList
        "    modImplementation \"curse.maven:mymod-123:456\"".toList
      = "dependencies \x7b\n  \n    modImplementation \"curse.maven:mymod-123:456\"\n\x7d\n".toList
    ∧ update_or_insert_dependency
        "dependencies \x7b\n  \n    modImplementation \"curse.maven:mymod-123:456\"\n\x7d\n".toList
        "123".toList
        "    modImplementation \"curse.maven:mymod-123:456\"".toList
      = "dependencies \x7b\n    modImplementation \"curse.maven:mymod-123:456\"\n\x7d\n".toList
    ∧ ("dependencies \x7b\n  \n    modImplementation \"curse.maven:mymod-123:456\"\n\x7d\n".toList : Txt)
      ≠ "dependencies \x7b\n    modImplementation \"curse.maven:mymod-123:456\"\n\x7d\n".toList :=
  ⟨rfl, by decide, by decide, by decide⟩

/-- A byte-wise list pattern cannot be longer than a list it begins. -/
theorem isPrefixOf_length_le :
    ∀ (l s : Txt), l.isPrefixOf s = true → l.length ≤ s.length := by
  intro l
  induction l with
  | nil => simp
  | cons a as ih =>
    intro s h
    cases s with
    | nil => simp [List.isPrefixOf] at h
    | cons b bs =>
      simp only [List.isPrefixOf, Bool.and_eq_true] at h
      have := ih bs h.2
      simp only [List.length_cons]
      omega

/-- The kept run of `takeWhile` is never longer than the input. -/
theorem takeWhileLen_le : ∀ (p : Char → Bool) (s : Txt),
    (s.takeWhile p).length ≤ s.length := by
  intro p s
  induction s with
  | nil => simp
  | cons c cs ih =>
    rw [List.takeWhile_cons]
    by_cases h : p c
    · simp only [h, if_true, List.length_cons]
      omega
    · simp [h]

/-- The `starGo` loop never consumes more than the available suffix (given the same
for the rest-matcher). -/
theorem starGo_le (mr : Txt → Option Nat)
    (hmr : ∀ t m, mr t = some m → m ≤ t.length) (s : Txt) :
    ∀ k, k ≤ s.length → ∀ r, starGo mr s k = some r → r ≤ s.length := by
  intro k
  induction k with
  | zero => intro _ r h; exact hmr s r h
  | succ k ih =>
    intro hk r h
    rw [starGo] at h
    cases hm : mr (s.drop (k + 1)) with
    | some m =>
      rw [hm] at h
      simp only [Option.map_some'] at h
      cases h
      have := hmr _ _ hm
      simp only [List.length_drop] at this
      omega
    | none =>
      rw [hm] at h
      simp only [Option.map_none'] at h
      exact ih (by omega) r h

/-- A `matchSeq` match never extends past the end of the text. -/
theorem matchSeq_le :
    ∀ (pat : List RElem) (s : Txt) (n : Nat), matchSeq pat s = some n → n ≤ s.length := by
  intro pat
  induction pat with
  | nil =>
    intro s n h
    rw [matchSeq] at h
    cases h
    simp
  | cons e ps ih =>
    intro s n h
    cases e with
    | lit l =>
      rw [matchSeq] at h
      split at h
      · rename_i hpre
        cases hm : matchSeq ps (s.drop l.length) with
        | some m =>
          rw [hm] at h
          simp only [Option.map_some'] at h
          cases h
          have h1 := ih _ _ hm
          have h2 : l.length ≤ s.length := isPrefixOf_length_le l s hpre
          simp only [List.length_drop] at h1
          omega
        | none => rw [hm] at h; cases h
      · cases h
    | cls p =>
      cases s with
      | nil => rw [matchSeq] at h; cases h
      | cons c rest =>
        rw [matchSeq] at h
        split at h
        · cases hm : matchSeq ps rest with
          | some m =>
            rw [hm] at h
            simp only [Option.map_some'] at h
            cases h
            have := ih _ _ hm
            simp only [List.length_cons]
            omega
          | none => rw [hm] at h; cases h
        · cases h
    | star p =>
      rw [matchSeq] at h
      exact starGo_le (matchSeq ps) (fun t m hm => ih t m hm) s _
        (takeWhileLen_le p s) n h
    | eol =>
      cases s with
      | nil =>
        rw [matchSeq] at h
        simpa using ih _ _ h
      | cons c rest =>
        rw [matchSeq] at h
        split at h
        · exact ih _ _ h
        · cases h

/-- Bounds of the anchored scan: a reported match lies between the scan start
and the end of the text. -/
theorem findAnchoredFrom_bounds (pat : List RElem) (src : Txt) :
    ∀ (fuel i s e : Nat), findAnchoredFrom pat src i fuel = some (s, e) →
      i ≤ s ∧ s ≤ e ∧ e ≤ src.length := by
  intro fuel
  induction fuel with
  | zero => intro i s e h; rw [findAnchoredFrom] at h; cases h
  | succ fuel ih =>
    intro i s e h
    rw [findAnchoredFrom] at h
    split at h
    · cases h
    · split at h
      · cases hm : matchSeq pat (src.drop i) with
        | some n =>
          rw [hm] at h
          cases h
          have h1 := matchSeq_le pat _ _ hm
          simp only [List.length_drop] at h1
          rename_i hle _
          omega
        | none =>
          rw [hm] at h
          have := ih _ _ _ h
          omega
      · have := ih _ _ _ h
        omega

/-- The brace walk never moves backwards. -/
theorem braceWalk_ge : ∀ (l : Txt) (pos b : Nat), pos ≤ (braceWalk l pos b).1 := by
  intro l
  induction l with
  | nil => intro pos b; exact le_refl _
  | cons c cs ih =>
    intro pos b
    cases b with
    | zero => exact le_refl _
    | succ b => exact le_trans (Nat.le_succ pos) (ih (pos + 1) _)

/-- The brace walk never moves past the end of the text. -/
theorem braceWalk_le : ∀ (l : Txt) (pos b : Nat), (braceWalk l pos b).1 ≤ pos + l.length := by
  intro l
  induction l with
  | nil => intro pos b; simp [braceWalk]
  | cons c cs ih =>
    intro pos b
    cases b with
    | zero => simp [braceWalk]
    | succ b =>
      have := ih (pos + 1) (if c = '{' then b + 2 else if c = '}' then b else b + 1)
      simp only [braceWalk, List.length_cons]
      omega

/-- With depth zero the brace walk is already over. -/
theorem braceWalk_zero : ∀ (l : Txt) (pos : Nat), braceWalk l pos 0 = (pos, 0) := by
  intro l pos
  cases l <;> rfl

/-- If the walk starts at positive depth and reaches depth zero, it consumed
at least one character. -/
theorem braceWalk_progress :
    ∀ (l : Txt) (pos b : Nat), b ≠ 0 → (braceWalk l pos b).2 = 0 →
      pos < (braceWalk l pos b).1 := by
  intro l
  induction l with
  | nil => intro pos b hb h; exact absurd h hb
  | cons c cs ih =>
    intro pos b hb h
    cases b with
    | zero => exact absurd rfl hb
    | succ b =>
      rw [braceWalk] at h ⊢
      by_cases hb' : (if c = '{' then b + 2 else if c = '}' then b else b + 1) = 0
      · rw [hb', braceWalk_zero]
        omega
      · have := ih (pos + 1) _ hb' h
        omega

/-- Invariants of the block-locator loop: any returned range `(s, e)`
satisfies `s ≤ e ≤ len`, and when the forward brace walk ends without the
depth returning to zero, `e` is exactly the text length. -/
theorem ftlrLoop_spec (name src : Txt) :
    ∀ (fuel i s e : Nat), ftlrLoop name src i fuel = some (s, e) →
      (s ≤ e ∧ e ≤ src.length)
      ∧ ((braceWalk (src.drop s) s 1).2 ≠ 0 → e = src.length) := by
  intro fuel
  induction fuel with
  | zero => intro i s e h; rw [ftlrLoop] at h; cases h
  | succ fuel ih =>
    intro i s e h
    rw [ftlrLoop] at h
    cases hf : findAnchoredFrom (blockPat name) src i (src.length + 1 - i) with
    | none => rw [hf] at h; cases h
    | some m =>
      obtain ⟨ms, me⟩ := m
      rw [hf] at h
      dsimp only at h
      by_cases hd : braceDepth (src.take ms) = 0
      · rw [if_pos hd] at h
        cases h
        have hb := findAnchoredFrom_bounds (blockPat name) src _ _ _ _ hf
        constructor
        · by_cases hw : (braceWalk (src.drop s) s 1).2 = 0
          · rw [if_pos hw]
            have hge := braceWalk_progress (src.drop s) s 1 (by omega) hw
            have hle := braceWalk_le (src.drop s) s 1
            simp only [List.length_drop] at hle
            omega
          · rw [if_neg hw]
            omega
        · intro hw
          rw [if_neg hw]
      · rw [if_neg hd] at h
        exact ih _ _ _ h

/-- Claim C8: whenever the block locator returns a range `(s, e)`, it
satisfies `s ≤ e ≤ len(text)`; and when the forward brace walk (from just
after the opening brace, at depth 1) reaches the end of the text without the
depth returning to zero, `e` equals `len(text)` — the block is treated as
extending to end of file. -/
theorem block_range_bounds (name src : Txt) (s e : Nat)
    (h : find_top_level_block_range name src = some (s, e)) :
    (s ≤ e ∧ e ≤ src.length)
    ∧ ((braceWalk (src.drop s) s 1).2 ≠ 0 → e = src.length) :=
  ftlrLoop_spec name src (src.length + 1) 0 s e h

/-- Witness: the invariant theorem applied to an unterminated block
`"repositories {"` — the locator returns `(14, 14)` and, the walk never
closing, `e` is forced to the text length. -/
theorem block_range_bounds_witness :
    ((14 ≤ 14 ∧ 14 ≤ ("repositories \x7b".toList : Txt).length)
      ∧ 14 = ("repositories \x7b".toList : Txt).length) := by
  have h := block_range_bounds "repositories".toList "repositories \x7b".toList 14 14
    (by decide)
  exact ⟨h.1, h.2 (by decide)⟩

end MDU
